import Mathlib

/-!
Verification of the EnergyGrid Data Aggregator core against its
natural-language specification.

The development shallowly embeds the JavaScript source:

* `BatchManager.createBatches` and `BatchManager.generateSerialNumbers`
  (src `batchManager`),
* `DataAggregator.fetchBatchWithRetry`, `fetchAllData`, `saveResults` and
  `run` (src `aggregator`),
* `RateLimiter._calculateDelay`, `_processQueue`, `schedule` and
  `executeAll` (src `rateLimiter`).

Time is modelled as a natural-number clock; `setTimeout`-style sleeping
advances the clock by at least the requested delay.  Fallible operations
return `Except`, and the non-terminating chunking loop is given explicit
fuel (`none` = the loop has not finished within the given fuel).
-/

set_option maxHeartbeats 1000000

deriving instance DecidableEq for Except

namespace EnergyGrid

/-! ### BatchManager (src/utils/batchManager.js) -/

/-- Model of the loop body of `BatchManager.createBatches`:
`for (let i = 0; i < array.length; i += batchSize) batches.push(array.slice(i, i + batchSize))`.
`fuel` bounds the number of loop iterations the model is willing to
execute; `none` means the loop did not terminate within `fuel` steps
(the JS loop has no other exit, and performs no argument validation).
`array.slice(i, i + batchSize)` for `0 ≤ i` and `0 ≤ batchSize` is
exactly `(array.drop i).take batchSize`. -/
def createBatchesGo (batchSize : Nat) : Nat → Nat → List α → Option (List (List α))
  | 0, _, _ => none
  | fuel + 1, i, arr =>
    if i < arr.length then
      Option.map (fun rest => ((arr.drop i).take batchSize) :: rest)
        (createBatchesGo batchSize fuel (i + batchSize) arr)
    else
      some []

/-- Model of `BatchManager.createBatches(array, batchSize)`.  The fuel
`array.length + 1` is enough for every positive `batchSize` (the index
advances by at least one per iteration), so `none` is returned exactly
when the source loop diverges. -/
def createBatches (arr : List α) (batchSize : Nat) : Option (List (List α)) :=
  createBatchesGo batchSize (arr.length + 1) 0 arr

/-- Reference chunking function: split a list into contiguous chunks of
size `K` (last chunk possibly shorter).  Used to state and prove the
partitioner properties; `createBatches` is proved to agree with it for
every positive chunk size. -/
def chunksOf : Nat → List α → List (List α)
  | _, [] => []
  | 0, a :: l => [a :: l]
  | K + 1, a :: l => (a :: l).take (K + 1) :: chunksOf (K + 1) ((a :: l).drop (K + 1))
termination_by _ l => l.length
decreasing_by simp; omega

theorem chunksOf_nil (K : Nat) : chunksOf K ([] : List α) = [] := by
  simp [chunksOf]

theorem chunksOf_cons (K : Nat) (a : α) (l : List α) :
    chunksOf (K + 1) (a :: l) =
      (a :: l).take (K + 1) :: chunksOf (K + 1) ((a :: l).drop (K + 1)) := by
  rw [chunksOf]

/-- On suffixes, the fueled loop agrees with the reference chunking
function whenever the chunk size is positive and the fuel dominates the
number of remaining elements. -/
theorem createBatchesGo_eq_chunksOf (K : Nat) (hK : 1 ≤ K) (arr : List α) :
    ∀ fuel i, arr.length - i < fuel →
      createBatchesGo K fuel i arr = some (chunksOf K (arr.drop i)) := by
  intro fuel
  induction fuel with
  | zero => intro i h; omega
  | succ fuel ih =>
    intro i h
    by_cases hi : i < arr.length
    · obtain ⟨K1, rfl⟩ : ∃ K1, K = K1 + 1 := ⟨K - 1, by omega⟩
      have hrec := ih (i + (K1 + 1)) (by omega)
      have hne : arr.drop i ≠ [] := by
        intro hnil
        have hlen := congrArg List.length hnil
        simp at hlen
        omega
      have hchunks : chunksOf (K1 + 1) (arr.drop i)
          = (arr.drop i).take (K1 + 1) :: chunksOf (K1 + 1) (arr.drop (i + (K1 + 1))) := by
        obtain ⟨a, t, hdrop⟩ := List.exists_cons_of_ne_nil hne
        rw [hdrop, chunksOf_cons, ← hdrop, List.drop_drop]
      simp only [createBatchesGo, if_pos hi, hrec, Option.map_some', hchunks]
    · simp only [createBatchesGo, if_neg hi]
      have hnil : arr.drop i = [] := List.drop_eq_nil_of_le (by omega)
      rw [hnil, chunksOf_nil]

theorem createBatches_eq_chunksOf (arr : List α) (K : Nat) (hK : 1 ≤ K) :
    createBatches arr K = some (chunksOf K arr) := by
  have h := createBatchesGo_eq_chunksOf K hK arr (arr.length + 1) 0 (by omega)
  simpa [createBatches] using h

theorem chunksOf_flatten (K : Nat) :
    ∀ n (l : List α), l.length ≤ n → (chunksOf (K + 1) l).flatten = l := by
  intro n
  induction n with
  | zero =>
    intro l h
    have hl : l = [] := List.length_eq_zero.mp (by omega)
    simp [hl, chunksOf_nil]
  | succ n ih =>
    intro l h
    cases l with
    | nil => simp [chunksOf_nil]
    | cons a t =>
      simp only [List.length_cons] at h
      rw [chunksOf_cons]
      simp only [List.flatten_cons]
      rw [ih ((a :: t).drop (K + 1)) (by simp; omega)]
      exact List.take_append_drop _ _

theorem chunksOf_dropLast_length (K : Nat) :
    ∀ n (l : List α), l.length ≤ n →
      ∀ c ∈ (chunksOf (K + 1) l).dropLast, c.length = K + 1 := by
  intro n
  induction n with
  | zero =>
    intro l h c hc
    have hl : l = [] := List.length_eq_zero.mp (by omega)
    simp [hl, chunksOf_nil] at hc
  | succ n ih =>
    intro l h c hc
    cases l with
    | nil => simp [chunksOf_nil] at hc
    | cons a t =>
      simp only [List.length_cons] at h
      rw [chunksOf_cons] at hc
      cases hrest : chunksOf (K + 1) ((a :: t).drop (K + 1)) with
      | nil => rw [hrest] at hc; simp at hc
      | cons r rs =>
        rw [hrest] at hc
        rw [List.dropLast_cons_of_ne_nil (by simp)] at hc
        rcases List.mem_cons.mp hc with hc1 | hc2
        · subst hc1
          have hne : (a :: t).drop (K + 1) ≠ [] := by
            intro hnil
            rw [hnil, chunksOf_nil] at hrest
            exact List.noConfusion hrest
          have hlen : K + 1 < (a :: t).length := by
            by_contra hle
            exact hne (List.drop_eq_nil_of_le (by omega))
          simp only [List.length_cons] at hlen
          simp only [List.length_take, List.length_cons]
          omega
        · exact ih ((a :: t).drop (K + 1)) (by simp; omega) c (by rw [hrest]; exact hc2)

theorem chunksOf_getLast_length (K : Nat) :
    ∀ n (l : List α), l.length ≤ n →
      ∀ c, (chunksOf (K + 1) l).getLast? = some c →
        1 ≤ c.length ∧ c.length ≤ K + 1 := by
  intro n
  induction n with
  | zero =>
    intro l h c hc
    have hl : l = [] := List.length_eq_zero.mp (by omega)
    rw [hl, chunksOf_nil] at hc
    exact Option.noConfusion hc
  | succ n ih =>
    intro l h c hc
    cases l with
    | nil => rw [chunksOf_nil] at hc; exact Option.noConfusion hc
    | cons a t =>
      simp only [List.length_cons] at h
      rw [chunksOf_cons] at hc
      cases hrest : chunksOf (K + 1) ((a :: t).drop (K + 1)) with
      | nil =>
        rw [hrest] at hc
        have hceq : (a :: t).take (K + 1) = c := by
          have := hc
          simp only [List.getLast?] at this
          exact Option.some.inj this
        subst hceq
        simp only [List.length_take, List.length_cons]
        omega
      | cons r rs =>
        rw [hrest] at hc
        rw [List.getLast?_cons_cons] at hc
        exact ih ((a :: t).drop (K + 1)) (by simp; omega) c (by rw [hrest]; exact hc)

theorem chunksOf_eq_nil_iff (K : Nat) (l : List α) :
    chunksOf (K + 1) l = [] ↔ l = [] := by
  cases l with
  | nil => simp [chunksOf_nil]
  | cons a t => rw [chunksOf_cons]; simp

/-- C9.  Partitioner correctness: for every input and every chunk size
K ≥ 1, `createBatches` terminates with a chunk list whose concatenation
reproduces the input, whose non-final chunks all have length exactly K,
whose final chunk has length between 1 and K, and which is empty exactly
when the input is empty. -/
theorem createBatches_spec (arr : List α) (K : Nat) (hK : 1 ≤ K) :
    (createBatches arr K).isSome = true ∧
    ∀ cs, createBatches arr K = some cs →
      cs.flatten = arr ∧
      (∀ c ∈ cs.dropLast, c.length = K) ∧
      (∀ l, cs.getLast? = some l → 1 ≤ l.length ∧ l.length ≤ K) ∧
      (cs = [] ↔ arr = []) := by
  obtain ⟨K1, rfl⟩ : ∃ K1, K = K1 + 1 := ⟨K - 1, by omega⟩
  have heq := createBatches_eq_chunksOf arr (K1 + 1) hK
  refine ⟨by rw [heq]; rfl, ?_⟩
  intro cs hcs
  have hcs : chunksOf (K1 + 1) arr = cs := Option.some.inj (heq ▸ hcs)
  subst hcs
  refine ⟨chunksOf_flatten K1 arr.length arr le_rfl, ?_, ?_, chunksOf_eq_nil_iff K1 arr⟩
  · exact chunksOf_dropLast_length K1 arr.length arr le_rfl
  · exact chunksOf_getLast_length K1 arr.length arr le_rfl

/-- Witness for C9 at a concrete input (five elements, chunk size two). -/
theorem createBatches_spec_witness :
    (createBatches ["a", "b", "c", "d", "e"] 2).isSome = true ∧
    ([["a", "b"], ["c", "d"], ["e"]] : List (List String)).flatten = ["a", "b", "c", "d", "e"] ∧
    (∀ c ∈ ([["a", "b"], ["c", "d"], ["e"]] : List (List String)).dropLast, c.length = 2) := by
  have h := createBatches_spec ["a", "b", "c", "d", "e"] 2 (by decide)
  have hsome : createBatches ["a", "b", "c", "d", "e"] 2 =
      some [["a", "b"], ["c", "d"], ["e"]] := by decide
  exact ⟨h.1, (h.2 _ hsome).1, (h.2 _ hsome).2.1⟩

/-- C3.  Evaluation of the code at the failing input: for batch size 0
and the nonempty input `["SN-000"]`, the chunking loop of
`createBatches` never terminates, however much fuel it is given — the
index `i` never advances, so the source neither raises an
invalid-argument error nor returns a value. -/
theorem createBatches_zero_diverges :
    ∀ fuel, createBatchesGo 0 fuel 0 ["SN-000"] = none := by
  intro fuel
  induction fuel with
  | zero => rfl
  | succ fuel ih => simp [createBatchesGo, ih]

/-- Model of the loop of `BatchManager.generateSerialNumbers`:
`i.toString().padStart(3, '0')` prefixed by `pfx`. -/
def padStartZeros (width : Nat) (s : String) : String :=
  if width ≤ s.length then s else String.mk (List.replicate (width - s.length) '0') ++ s

/-- Model of `BatchManager.generateSerialNumbers(count, prefix)`. -/
def generateSerialNumbers (count : Nat) (pfx : String) : List String :=
  (List.range count).map (fun i => pfx ++ padStartZeros 3 (toString i))

/-! ### DataAggregator retry logic (src/core/aggregator.js) -/

/-- One element of `this.errors`, as pushed by
`DataAggregator.fetchBatchWithRetry` when the retries are exhausted:
`{ batch: batchIndex + 1, serialNumbers: batch, error: error.message }`. -/
structure FailureEntry where
  batch : Nat
  serialNumbers : List String
  error : String
deriving DecidableEq, Repr

/-- Terminal outcome of one retrying fetch task: the records it resolves
with, the final value of the attempt counter (`retryCount`), the failure
entries it pushed onto `this.errors`, and whether the fetch succeeded. -/
structure FetchOutcome (α : Type) where
  records : List α
  attempts : Nat
  newErrors : List FailureEntry
  succeeded : Bool
deriving DecidableEq, Repr

/-- Recursion of `DataAggregator.fetchBatchWithRetry`.  `fetch k` is the
outcome of the attempt made while `retryCount = k`.  The source retries
when `retryCount < MAX_RETRIES`; structurally this is encoded with
`remaining = maxRetries - retryCount`, so `remaining = 0` is exactly the
`retryCount == MAX_RETRIES` branch that pushes the failure entry and
resolves with the empty record list. -/
def retryGo (fetch : Nat → Except String (List α)) (batch : List String) (batchIndex : Nat) :
    Nat → Nat → FetchOutcome α
  | retryCount, remaining =>
    match fetch retryCount with
    | Except.ok data => ⟨data, retryCount, [], true⟩
    | Except.error msg =>
      match remaining with
      | 0 => ⟨[], retryCount, [⟨batchIndex + 1, batch, msg⟩], false⟩
      | r + 1 => retryGo fetch batch batchIndex (retryCount + 1) r

/-- Model of `DataAggregator.fetchBatchWithRetry(batch, batchIndex)`
starting from `retryCount = 0` with the configured retry ceiling. -/
def fetchBatchWithRetry (fetch : Nat → Except String (List α)) (maxRetries : Nat)
    (batch : List String) (batchIndex : Nat) : FetchOutcome α :=
  retryGo fetch batch batchIndex 0 maxRetries

theorem retryGo_eventual_success (fetch : Nat → Except String (List α)) (batch : List String)
    (batchIndex : Nat) (msgs : Nat → String) :
    ∀ remaining retryCount R recs, retryCount ≤ R → R ≤ retryCount + remaining →
      (∀ k, retryCount ≤ k → k < R → fetch k = Except.error (msgs k)) →
      fetch R = Except.ok recs →
      retryGo fetch batch batchIndex retryCount remaining = ⟨recs, R, [], true⟩ := by
  intro remaining
  induction remaining with
  | zero =>
    intro retryCount R recs h1 h2 hfail hsucc
    have hR : R = retryCount := by omega
    subst hR
    rw [retryGo, hsucc]
  | succ remaining ih =>
    intro retryCount R recs h1 h2 hfail hsucc
    rcases Nat.eq_or_lt_of_le h1 with heq | hlt
    · subst heq
      rw [retryGo, hsucc]
    · have herr := hfail retryCount le_rfl hlt
      rw [retryGo, herr]
      exact ih (retryCount + 1) R recs hlt (by omega)
        (fun k hk1 hk2 => hfail k (by omega) hk2) hsucc

theorem retryGo_all_fail (fetch : Nat → Except String (List α)) (batch : List String)
    (batchIndex : Nat) (msgs : Nat → String) :
    ∀ remaining retryCount,
      (∀ k, retryCount ≤ k → k ≤ retryCount + remaining → fetch k = Except.error (msgs k)) →
      retryGo fetch batch batchIndex retryCount remaining =
        ⟨[], retryCount + remaining,
          [⟨batchIndex + 1, batch, msgs (retryCount + remaining)⟩], false⟩ := by
  intro remaining
  induction remaining with
  | zero =>
    intro retryCount hfail
    have herr := hfail retryCount le_rfl (by omega)
    rw [retryGo, herr]
    simp
  | succ remaining ih =>
    intro retryCount hfail
    have herr := hfail retryCount le_rfl (by omega)
    have harith : retryCount + (remaining + 1) = retryCount + 1 + remaining := by omega
    rw [harith, retryGo, herr]
    exact ih (retryCount + 1) (fun k hk1 hk2 => hfail k (by omega) (by omega))

/-- C6.  Retry terminal behaviour: if the fetch fails on every attempt
before attempt R (R below the retry ceiling) and succeeds at attempt R,
the task ends succeeded with `attempts = R`, resolving with the fetched
records and pushing no failure entry; if the fetch fails on every
attempt, the task ends failed with `attempts = maxRetries`, pushes
exactly one failure entry, and resolves with the empty record list
(no error is propagated). -/
theorem fetchBatchWithRetry_terminal (fetch : Nat → Except String (List α)) (maxRetries : Nat)
    (batch : List String) (batchIndex : Nat) (msgs : Nat → String) :
    (∀ R recs, R < maxRetries → (∀ k, k < R → fetch k = Except.error (msgs k)) →
        fetch R = Except.ok recs →
        fetchBatchWithRetry fetch maxRetries batch batchIndex = ⟨recs, R, [], true⟩) ∧
    ((∀ k, k ≤ maxRetries → fetch k = Except.error (msgs k)) →
        fetchBatchWithRetry fetch maxRetries batch batchIndex =
          ⟨[], maxRetries, [⟨batchIndex + 1, batch, msgs maxRetries⟩], false⟩) := by
  constructor
  · intro R recs hR hfail hsucc
    exact retryGo_eventual_success fetch batch batchIndex msgs maxRetries 0 R recs
      (by omega) (by omega) (fun k _ hk2 => hfail k hk2) hsucc
  · intro hfail
    have h := retryGo_all_fail fetch batch batchIndex msgs maxRetries 0
      (fun k hk1 hk2 => hfail k (by omega))
    simpa [fetchBatchWithRetry] using h

/-- Concrete fetch behaviour that fails twice and then succeeds. -/
def demoFetchFlaky : Nat → Except String (List String) :=
  fun k => if k < 2 then Except.error "boom" else Except.ok ["rec"]

/-- Concrete fetch behaviour that fails on every attempt. -/
def demoFetchDead : Nat → Except String (List String) :=
  fun _ => Except.error "boom"

/-- Witness for C6 at concrete inputs: with retry ceiling 3, a fetch
that fails twice and then succeeds ends succeeded with two attempts, and
a fetch that always fails ends failed with three attempts and one
failure entry. -/
theorem fetchBatchWithRetry_terminal_witness :
    fetchBatchWithRetry demoFetchFlaky 3 ["SN-000"] 0 = ⟨["rec"], 2, [], true⟩ ∧
    fetchBatchWithRetry demoFetchDead 3 ["SN-000"] 0 =
      ⟨[], 3, [⟨1, ["SN-000"], "boom"⟩], false⟩ := by
  constructor
  · exact (fetchBatchWithRetry_terminal demoFetchFlaky 3 ["SN-000"] 0 (fun _ => "boom")).1
      2 ["rec"] (by decide) (fun k hk => by simp [demoFetchFlaky, hk]) rfl
  · exact (fetchBatchWithRetry_terminal demoFetchDead 3 ["SN-000"] 0 (fun _ => "boom")).2
      (fun _ _ => rfl)

/-- C2 counterexample: a permanently failed task at zero-based batch
index 0 records batch number 1 — the source pushes `batchIndex + 1`, a
one-based number, not the zero-based index the claim states. -/
theorem failureEntry_zero_based_counterexample :
    (fetchBatchWithRetry demoFetchDead 3 ["SN-000"] 0).newErrors =
      [⟨1, ["SN-000"], "boom"⟩] ∧
    (fetchBatchWithRetry demoFetchDead 3 ["SN-000"] 0).newErrors.map FailureEntry.batch ≠
      [0] := by
  decide

/-- C2 (amended).  For every task that fails permanently, exactly one
failure entry is created, recording the one-based batch number
(`batchIndex + 1`), the full identifier list of the batch, and the final
error description; being a pure value it is never mutated afterward, and
the task does not succeed. -/
theorem failureEntry_record (fetch : Nat → Except String (List α)) (maxRetries : Nat)
    (batch : List String) (batchIndex : Nat) (msgs : Nat → String)
    (hfail : ∀ k, k ≤ maxRetries → fetch k = Except.error (msgs k)) :
    (fetchBatchWithRetry fetch maxRetries batch batchIndex).newErrors =
      [⟨batchIndex + 1, batch, msgs maxRetries⟩] ∧
    (fetchBatchWithRetry fetch maxRetries batch batchIndex).succeeded = false := by
  have h := retryGo_all_fail fetch batch batchIndex msgs maxRetries 0
    (fun k hk1 hk2 => hfail k (by omega))
  simp only [Nat.zero_add] at h
  refine ⟨?_, ?_⟩ <;> simp [fetchBatchWithRetry, h]

/-- Witness for C2 at a concrete input: batch `["SN-010", "SN-011"]` at
zero-based index 4, always-failing fetch, retry ceiling 3. -/
theorem failureEntry_record_witness :
    (fetchBatchWithRetry demoFetchDead 3 ["SN-010", "SN-011"] 4).newErrors =
      [⟨5, ["SN-010", "SN-011"], "boom"⟩] ∧
    (fetchBatchWithRetry demoFetchDead 3 ["SN-010", "SN-011"] 4).succeeded = false :=
  failureEntry_record demoFetchDead 3 ["SN-010", "SN-011"] 4 (fun _ => "boom")
    (fun _ _ => rfl)

/-! ### RateLimiter (src/services/rateLimiter.js) -/

/-- Model of `RateLimiter._calculateDelay()`:
`timeSince = now - lastRequestTime; if (timeSince >= intervalMs) return 0; return intervalMs - timeSince`.
The clock is a natural number of milliseconds; the scheduler maintains
`lastRequestTime ≤ now`. -/
def calculateDelay (intervalMs now lastRequestTime : Nat) : Nat :=
  if intervalMs ≤ now - lastRequestTime then 0 else intervalMs - (now - lastRequestTime)

/-- One queued task as the drain loop sees it: `slack` is the extra time
the host lets pass beyond the requested sleep before `Date.now()` is
sampled again (sleeping advances the clock by at least the requested
delay), `duration` is how long the awaited task body runs, and `outcome`
is the value or error the task settles with. -/
structure RLTask (α ε : Type) where
  slack : Nat
  duration : Nat
  outcome : Except ε α

/-- Trace of one run of the drain loop: the admission (start) time of
each task, in order, and the outcome delivered to each task's waiting
caller, in order. -/
structure RLResult (α ε : Type) where
  admitTimes : List Nat
  outcomes : List (Except ε α)

/-- Model of the `while` loop of `RateLimiter._processQueue()`: shift
the head task, sleep for `_calculateDelay()`, set
`lastRequestTime = Date.now()`, await the task, and route its outcome
(`resolve` or `reject`) to that task's own caller; a rejection is caught
and does not leave the loop. -/
def processQueue (intervalMs : Nat) :
    Nat → Nat → List (RLTask α ε) → RLResult α ε
  | _, _, [] => ⟨[], []⟩
  | now, lastRequestTime, t :: rest =>
    let delay := calculateDelay intervalMs now lastRequestTime
    let admitAt := now + delay + t.slack
    let r := processQueue intervalMs (admitAt + t.duration) admitAt rest
    ⟨admitAt :: r.admitTimes, t.outcome :: r.outcomes⟩

theorem calculateDelay_spacing (intervalMs now lastRequestTime slack : Nat)
    (h : lastRequestTime ≤ now) :
    lastRequestTime + intervalMs ≤ now + calculateDelay intervalMs now lastRequestTime + slack := by
  unfold calculateDelay
  split <;> omega

/-- Every admission time is at least one interval after the stored
`lastRequestTime`, and consecutive admissions are chained the same
way. -/
theorem processQueue_admit_chain (intervalMs : Nat) (tasks : List (RLTask α ε)) :
    ∀ now lastRequestTime, lastRequestTime ≤ now →
      List.Chain (fun a b => a + intervalMs ≤ b) lastRequestTime
        (processQueue intervalMs now lastRequestTime tasks).admitTimes := by
  induction tasks with
  | nil => intro now lastRequestTime h; exact List.Chain.nil
  | cons t rest ih =>
    intro now lastRequestTime h
    rw [processQueue]
    refine List.Chain.cons ?_ (ih _ _ (by omega))
    exact calculateDelay_spacing intervalMs now lastRequestTime t.slack h

theorem processQueue_admit_length (intervalMs : Nat) (tasks : List (RLTask α ε)) :
    ∀ now lastRequestTime,
      (processQueue intervalMs now lastRequestTime tasks).admitTimes.length = tasks.length := by
  induction tasks with
  | nil => intro now lastRequestTime; rfl
  | cons t rest ih =>
    intro now lastRequestTime
    rw [processQueue]
    simp [ih]

theorem processQueue_outcomes (intervalMs : Nat) (tasks : List (RLTask α ε)) :
    ∀ now lastRequestTime,
      (processQueue intervalMs now lastRequestTime tasks).outcomes =
        tasks.map RLTask.outcome := by
  induction tasks with
  | nil => intro now lastRequestTime; rfl
  | cons t rest ih =>
    intro now lastRequestTime
    rw [processQueue]
    simp [ih]

/-- A chain of minimum gaps forces the whole span: the last element is
at least `(length - 1)` intervals after the first. -/
theorem chain_head_getLast (intervalMs : Nat) :
    ∀ l : List Nat, List.Chain' (fun a b => a + intervalMs ≤ b) l →
      l.head?.getD 0 + (l.length - 1) * intervalMs ≤ l.getLast?.getD 0 := by
  intro l
  induction l with
  | nil => intro _; simp
  | cons x l ih =>
    intro hchain
    cases l with
    | nil => simp
    | cons y t =>
      rw [List.chain'_cons] at hchain
      have hxy := hchain.1
      have htail := ih hchain.2
      rw [List.getLast?_cons_cons]
      simp only [List.head?_cons, Option.getD_some, List.length_cons] at htail ⊢
      have : (t.length + 1 + 1 - 1) * intervalMs
          = intervalMs + (t.length + 1 - 1) * intervalMs := by
        simp [Nat.succ_sub_one, Nat.succ_mul, Nat.add_comm]
      omega

/-- C4.  Rate-limiting guarantee: starting from any state with
`lastRequestTime ≤ now` (as maintained by the source, which initialises
`lastRequestTime = 0`), the admission times of any two consecutively
admitted tasks differ by at least the configured interval, one admission
happens per task, and the span between the first and the last admission
is at least `(N - 1) ×` interval for `N` tasks. -/
theorem rateLimiter_min_gap (intervalMs : Nat) (tasks : List (RLTask α ε))
    (now lastRequestTime : Nat) (h : lastRequestTime ≤ now) :
    List.Chain' (fun a b => a + intervalMs ≤ b)
      (processQueue intervalMs now lastRequestTime tasks).admitTimes ∧
    (processQueue intervalMs now lastRequestTime tasks).admitTimes.length = tasks.length ∧
    (processQueue intervalMs now lastRequestTime tasks).admitTimes.head?.getD 0
        + (tasks.length - 1) * intervalMs ≤
      (processQueue intervalMs now lastRequestTime tasks).admitTimes.getLast?.getD 0 := by
  have hchain := processQueue_admit_chain intervalMs tasks now lastRequestTime h
  have hchain2 : List.Chain' (fun a b => a + intervalMs ≤ b)
      (processQueue intervalMs now lastRequestTime tasks).admitTimes := by
    cases hadm : (processQueue intervalMs now lastRequestTime tasks).admitTimes with
    | nil => exact List.chain'_nil
    | cons a l =>
      rw [hadm] at hchain
      exact (List.chain_cons.mp hchain).2
  have hlen := processQueue_admit_length intervalMs tasks now lastRequestTime
  refine ⟨hchain2, hlen, ?_⟩
  have hspan := chain_head_getLast intervalMs
    (processQueue intervalMs now lastRequestTime tasks).admitTimes hchain2
  rw [hlen] at hspan
  exact hspan

/-- Witness for C4 at a concrete input: interval 1000 ms, two tasks of
durations 5 ms and 2500 ms, clock starting at 0.  The admissions are at
1000 and 2505, which are 1505 ≥ 1000 apart and span
`(2 - 1) × 1000`. -/
theorem rateLimiter_min_gap_witness :
    List.Chain' (fun a b => a + 1000 ≤ b)
      (processQueue 1000 0 0
        [⟨0, 5, Except.ok "a"⟩, ⟨0, 2500, (Except.ok "b" : Except String String)⟩]).admitTimes ∧
    (processQueue 1000 0 0
      [⟨0, 5, Except.ok "a"⟩, ⟨0, 2500, (Except.ok "b" : Except String String)⟩]).admitTimes.length
      = 2 ∧
    (processQueue 1000 0 0
      [⟨0, 5, Except.ok "a"⟩, ⟨0, 2500, (Except.ok "b" : Except String String)⟩]).admitTimes.head?.getD 0
        + (2 - 1) * 1000 ≤
      (processQueue 1000 0 0
        [⟨0, 5, Except.ok "a"⟩, ⟨0, 2500, (Except.ok "b" : Except String String)⟩]).admitTimes.getLast?.getD 0 :=
  rateLimiter_min_gap 1000
    [⟨0, 5, Except.ok "a"⟩, ⟨0, 2500, (Except.ok "b" : Except String String)⟩] 0 0
    (Nat.le_refl 0)

/-- C7.  Task isolation in the drain loop: a task that rejects has the
error delivered to its own waiting caller, and the loop still executes
every task — the outcome list is exactly the per-task outcome of every
queued task, in order. -/
theorem rateLimiter_task_isolation (intervalMs : Nat) (tasks : List (RLTask α ε))
    (now lastRequestTime i : Nat) (t : RLTask α ε) (e : ε)
    (ht : tasks[i]? = some t) (he : t.outcome = Except.error e) :
    (processQueue intervalMs now lastRequestTime tasks).outcomes[i]? =
      some (Except.error e) ∧
    (processQueue intervalMs now lastRequestTime tasks).outcomes =
      tasks.map RLTask.outcome ∧
    (processQueue intervalMs now lastRequestTime tasks).outcomes.length = tasks.length := by
  have hout := processQueue_outcomes intervalMs tasks now lastRequestTime
  refine ⟨?_, hout, by rw [hout]; simp⟩
  rw [hout, List.getElem?_map, ht]
  simp [he]

/-- Concrete queue whose first task rejects. -/
def demoTasks : List (RLTask String String) :=
  [⟨0, 1, Except.error "boom"⟩, ⟨0, 1, Except.ok "x"⟩]

/-- Witness for C7 at a concrete input: the first task rejects, and the
second is still executed with its own outcome. -/
theorem rateLimiter_task_isolation_witness :
    (processQueue 1000 0 0 demoTasks).outcomes[0]? = some (Except.error "boom") ∧
    (processQueue 1000 0 0 demoTasks).outcomes = demoTasks.map RLTask.outcome ∧
    (processQueue 1000 0 0 demoTasks).outcomes.length = demoTasks.length :=
  rateLimiter_task_isolation 1000 demoTasks 0 0 0
    (⟨0, 1, Except.error "boom"⟩ : RLTask String String) "boom" rfl rfl

/-! ### ScheduleQueue as a transition system (C5)

`RateLimiter.schedule` pushes onto `this.queue` and triggers
`_processQueue`; the drain loop shifts the head, awaits it, and settles
it, guarded by the `isProcessing` flag.  The asynchronous interleaving
of enqueues with the loop's suspension points is modelled as a
small-step relation on the observable queue state; task identities are
the values pushed. -/

/-- Observable state of one `RateLimiter` instance: the pending queue
(`this.queue`), the task currently admitted and being awaited by the
drain loop, the tasks already settled in completion order, every task
ever scheduled in arrival order, and the `isProcessing` flag. -/
structure QState where
  pending : List Nat
  current : List Nat
  done : List Nat
  arrived : List Nat
  isProcessing : Bool
deriving DecidableEq, Repr

/-- State of a freshly constructed `RateLimiter`. -/
def QState.start : QState := ⟨[], [], [], [], false⟩

/-- One observable step of the rate limiter.  `schedule` may interleave
at any suspension point; `beginLoop` is `_processQueue` passing its
`isProcessing` guard; `admitTask` is the loop shifting the queue head
(only after the previous task settled — the loop awaits it);
`settleTask` is the awaited task resolving or rejecting; `endLoop` is
the loop exiting and clearing `isProcessing`. -/
inductive QStep : QState → QState → Prop
  | schedule (s : QState) (t : Nat) :
      QStep s ⟨s.pending ++ [t], s.current, s.done, s.arrived ++ [t], s.isProcessing⟩
  | beginLoop (s : QState) (h1 : s.isProcessing = false) (h2 : s.pending ≠ []) :
      QStep s ⟨s.pending, s.current, s.done, s.arrived, true⟩
  | admitTask (s : QState) (t : Nat) (rest : List Nat) (hp : s.isProcessing = true)
      (hc : s.current = []) (hq : s.pending = t :: rest) :
      QStep s ⟨rest, [t], s.done, s.arrived, true⟩
  | settleTask (s : QState) (t : Nat) (hc : s.current = [t]) :
      QStep s ⟨s.pending, [], s.done ++ [t], s.arrived, s.isProcessing⟩
  | endLoop (s : QState) (hp : s.isProcessing = true) (hq : s.pending = [])
      (hc : s.current = []) :
      QStep s ⟨[], [], s.done, s.arrived, false⟩

/-- A state the rate limiter can actually be in. -/
def QReachable (s : QState) : Prop :=
  Relation.ReflTransGen QStep QState.start s

theorem QStep_preserves (s s2 : QState) (hstep : QStep s s2)
    (hinv : s.arrived = s.done ++ (s.current ++ s.pending)) :
    s2.arrived = s2.done ++ (s2.current ++ s2.pending) := by
  cases hstep with
  | schedule t => simp [hinv]
  | beginLoop h1 h2 => simpa using hinv
  | admitTask t rest hp hc hq => simp [hinv, hc, hq]
  | settleTask t hc => simp [hinv, hc]
  | endLoop hp hq hc => simp [hinv, hc, hq]

/-- C5.  FIFO invariant of the scheduler: in every reachable state, at
most one task is admitted (executing), and the settled tasks, the
currently executing task, and the pending queue in order are exactly the
arrival order — tasks are executed and completed in exactly the order
they were scheduled, so the completed list is always a prefix of the
arrival list and no task ever jumps ahead. -/
theorem scheduleQueue_fifo (s : QState) (h : QReachable s) :
    s.current.length ≤ 1 ∧
    s.arrived = s.done ++ (s.current ++ s.pending) ∧
    s.done <+: s.arrived := by
  have hmain : s.current.length ≤ 1 ∧ s.arrived = s.done ++ (s.current ++ s.pending) := by
    induction h with
    | refl => exact ⟨by decide, rfl⟩
    | tail hsteps hstep ih =>
      refine ⟨?_, QStep_preserves _ _ hstep ih.2⟩
      cases hstep with
      | schedule t => exact ih.1
      | beginLoop h1 h2 => exact ih.1
      | admitTask t rest hp hc hq => simp
      | settleTask t hc => simp
      | endLoop hp hq hc => simp
  exact ⟨hmain.1, hmain.2, ⟨s.current ++ s.pending, hmain.2.symm⟩⟩

/-- Witness for C5 at a concrete reachable state: task 7 was scheduled,
admitted, and settled; task 9 is still pending. -/
theorem scheduleQueue_fifo_witness :
    (⟨[9], [], [7], [7, 9], true⟩ : QState).current.length ≤ 1 ∧
    (⟨[9], [], [7], [7, 9], true⟩ : QState).arrived =
      (⟨[9], [], [7], [7, 9], true⟩ : QState).done ++
        ((⟨[9], [], [7], [7, 9], true⟩ : QState).current ++
          (⟨[9], [], [7], [7, 9], true⟩ : QState).pending) ∧
    (⟨[9], [], [7], [7, 9], true⟩ : QState).done <+:
      (⟨[9], [], [7], [7, 9], true⟩ : QState).arrived := by
  have h1 : QStep QState.start ⟨[7], [], [], [7], false⟩ := QStep.schedule QState.start 7
  have h2 : QStep (⟨[7], [], [], [7], false⟩ : QState) ⟨[7], [], [], [7], true⟩ :=
    QStep.beginLoop _ rfl (by decide)
  have h3 : QStep (⟨[7], [], [], [7], true⟩ : QState) ⟨[], [7], [], [7], true⟩ :=
    QStep.admitTask _ 7 [] rfl rfl rfl
  have h4 : QStep (⟨[], [7], [], [7], true⟩ : QState) ⟨[9], [7], [], [7, 9], true⟩ :=
    QStep.schedule _ 9
  have h5 : QStep (⟨[9], [7], [], [7, 9], true⟩ : QState) ⟨[9], [], [7], [7, 9], true⟩ :=
    QStep.settleTask _ 7 rfl
  exact scheduleQueue_fifo _
    (Relation.ReflTransGen.head h1 (Relation.ReflTransGen.head h2
      (Relation.ReflTransGen.head h3 (Relation.ReflTransGen.head h4
        (Relation.ReflTransGen.single h5)))))

/-! ### RateLimiter.executeAll (C10) -/

/-- Trace of `RateLimiter.executeAll(tasks)`: the value it settles with
(ordered results, or the first rejection), and how many tasks it
actually submitted to `schedule` before settling. -/
structure ExecTrace (α ε : Type) where
  result : Except ε (List α)
  submitted : Nat

/-- Model of `RateLimiter.executeAll`: `for` each task in order,
`await this.schedule(tasks[i])` and push the result.  An awaited
rejection throws out of the loop, so `executeAll` rejects with that
error and submits nothing further.  Each list element is the outcome the
corresponding task settles with when executed. -/
def executeAll : List (Except ε α) → ExecTrace α ε
  | [] => ⟨Except.ok [], 0⟩
  | t :: ts =>
    match t with
    | Except.error e => ⟨Except.error e, 1⟩
    | Except.ok v =>
      let r := executeAll ts
      ⟨Except.map (fun vs => v :: vs) r.result, r.submitted + 1⟩

/-- C10.  If every task before position i resolves and the task at
position i rejects with error e, then `executeAll` itself rejects with e
and exactly the first i + 1 tasks were ever submitted — nothing after
the i-th task is executed, and no ordered result list is returned. -/
theorem executeAll_rejects (ts : List (Except ε α)) (i : Nat) (e : ε)
    (hok : ∀ j, j < i → ∃ v, ts[j]? = some (Except.ok v))
    (hi : ts[i]? = some (Except.error e)) :
    (executeAll ts).result = Except.error e ∧ (executeAll ts).submitted = i + 1 := by
  induction ts generalizing i with
  | nil => simp at hi
  | cons t rest ih =>
    cases i with
    | zero =>
      simp only [List.getElem?_cons_zero] at hi
      have ht : t = Except.error e := Option.some.inj hi
      subst ht
      exact ⟨rfl, rfl⟩
    | succ i2 =>
      obtain ⟨v, hv⟩ := hok 0 (by omega)
      simp only [List.getElem?_cons_zero] at hv
      have ht : t = Except.ok v := Option.some.inj hv
      subst ht
      simp only [List.getElem?_cons_succ] at hi
      have hrec := ih i2 (fun j hj => by
        have := hok (j + 1) (by omega)
        simpa using this) hi
      simp only [executeAll]
      constructor
      · simp [hrec.1, Except.map]
      · simp [hrec.2]

/-- Witness for C10 at a concrete input: the second of three tasks
rejects; `executeAll` rejects with its error after submitting two tasks,
and the third task is never submitted. -/
theorem executeAll_rejects_witness :
    (executeAll ([Except.ok "a", Except.error "boom", Except.ok "c"] :
        List (Except String String))).result = Except.error "boom" ∧
    (executeAll ([Except.ok "a", Except.error "boom", Except.ok "c"] :
        List (Except String String))).submitted = 1 + 1 :=
  executeAll_rejects [Except.ok "a", Except.error "boom", Except.ok "c"] 1 "boom"
    (fun j hj => by
      have hj0 : j = 0 := by omega
      subst hj0
      exact ⟨"a", rfl⟩)
    rfl

/-! ### DataAggregator end-to-end (src/core/aggregator.js) -/

/-- Model of `DataAggregator.fetchAllData`: one retrying fetch task per
batch, submitted in batch order through the rate limiter (which
preserves order and absorbs nothing — the tasks themselves never
reject); returns the per-batch record lists in order and the failure
entries pushed onto `this.errors` in execution order.  `fetch i k` is
the outcome of attempt `k` on batch `i`. -/
def fetchAllDataGo (fetch : Nat → Nat → Except String (List α)) (maxRetries : Nat) :
    Nat → List (List String) → List (List α) × List FailureEntry
  | _, [] => ([], [])
  | i, b :: bs =>
    let o := fetchBatchWithRetry (fetch i) maxRetries b i
    let rest := fetchAllDataGo fetch maxRetries (i + 1) bs
    (o.records :: rest.1, o.newErrors ++ rest.2)

def fetchAllData (fetch : Nat → Nat → Except String (List α)) (maxRetries : Nat)
    (batches : List (List String)) : List (List α) × List FailureEntry :=
  fetchAllDataGo fetch maxRetries 0 batches

/-- The summary object written by `DataAggregator.saveResults`:
`totalDevices: TOTAL_DEVICES, successfulFetches: data.length,
failedFetches: this.errors.length, data, errors` (the timestamp field is
an opaque wall-clock string and is not modelled). -/
structure Report (α : Type) where
  totalDevices : Nat
  successfulFetches : Nat
  failedFetches : Nat
  data : List α
  errors : List FailureEntry
deriving DecidableEq, Repr

/-- Model of `DataAggregator.run()`: test the connection first — on
probe failure the thrown connectivity error reaches the outer catch and
the run ends fatally before any serial number is generated; otherwise
generate serial numbers, create batches, fetch everything (per-batch
failures are absorbed into `this.errors`), and assemble the report.
`none` models divergence of the batching loop (impossible for a
positive batch size). -/
def run (totalDevices : Nat) (pfx : String) (batchSize maxRetries : Nat) (probeOk : Bool)
    (fetch : Nat → Nat → Except String (List α)) : Option (Except String (Report α)) :=
  if probeOk then
    match createBatches (generateSerialNumbers totalDevices pfx) batchSize with
    | none => none
    | some batches =>
      let r := fetchAllData fetch maxRetries batches
      some (Except.ok ⟨totalDevices, r.1.flatten.length, r.2.length, r.1.flatten, r.2⟩)
  else
    some (Except.error "Cannot connect to API. Please ensure the mock server is running.")

/-- Does a run model end in a fatal, run-ending error? -/
def isFatal : Option (Except String (Report α)) → Bool
  | some (Except.error _) => true
  | _ => false

/-- Does a run model end with an assembled report? -/
def producesReport : Option (Except String (Report α)) → Bool
  | some (Except.ok _) => true
  | _ => false

/-- C8.  Fatal-error contract of `run()`: with a positive batch size,
the run ends fatally exactly when the connectivity probe fails; a failed
probe yields the connectivity error — independently of what any fetch
would do, since no task is ever consulted — and no report, while a
successful probe yields a report (never a fatal error) no matter how
many batches fail permanently. -/
theorem run_fatal_iff_probe (td : Nat) (pfx : String) (bs mr : Nat)
    (fetch fetch2 : Nat → Nat → Except String (List α)) (hbs : 1 ≤ bs) :
    run td pfx bs mr false fetch =
      some (Except.error "Cannot connect to API. Please ensure the mock server is running.") ∧
    run td pfx bs mr false fetch = run td pfx bs mr false fetch2 ∧
    producesReport (run td pfx bs mr true fetch) = true ∧
    isFatal (run td pfx bs mr true fetch) = false := by
  have hb := createBatches_eq_chunksOf (generateSerialNumbers td pfx) bs hbs
  refine ⟨rfl, rfl, ?_, ?_⟩
  · simp [run, hb, producesReport]
  · simp [run, hb, isFatal]

/-- Fetch behaviour where the remote never answers at all. -/
def endToEndFetchDead : Nat → Nat → Except String (List String) :=
  fun _ _ => Except.error "No response from server. Is the mock API running?"

/-- Fetch behaviour of the end-to-end scenario: the second batch
(zero-based index 1) fails on every attempt; every other batch succeeds
with exactly one device record per identifier (the record is modelled by
the identifier itself). -/
def endToEndFetch : Nat → Nat → Except String (List String) :=
  fun batchIndex _ =>
    if batchIndex = 1 then
      Except.error "No response from server. Is the mock API running?"
    else
      Except.ok (((createBatches (generateSerialNumbers 23 "SN-") 10).getD []).getD
        batchIndex [])

/-- The end-to-end scenario run: population 23, batch size 10, retry
ceiling 3, probe succeeding. -/
def endToEndRun : Option (Except String (Report String)) :=
  run 23 "SN-" 10 3 true endToEndFetch

/-- The `failedFetches` field of the scenario's report. -/
def endToEndFailedFetches : Option Nat :=
  match endToEndRun with
  | some (Except.ok rep) => some rep.failedFetches
  | _ => none

/-- Witness for C8 at the concrete scenario configuration. -/
theorem run_fatal_iff_probe_witness :
    run 23 "SN-" 10 3 false endToEndFetch =
      some (Except.error "Cannot connect to API. Please ensure the mock server is running.") ∧
    run 23 "SN-" 10 3 false endToEndFetch = run 23 "SN-" 10 3 false endToEndFetchDead ∧
    producesReport (run 23 "SN-" 10 3 true endToEndFetch) = true ∧
    isFatal (run 23 "SN-" 10 3 true endToEndFetch) = false :=
  run_fatal_iff_probe 23 "SN-" 10 3 endToEndFetch endToEndFetchDead (by decide)

/-- C1 counterexample: in the 23-device scenario with the second batch
permanently failing, the report's `failedFetches` is 1 — the length of
`this.errors`, which counts failed batches — not 10, the identifier
count the claim states. -/
theorem report_failedFetches_counterexample :
    endToEndFailedFetches = some 1 ∧ endToEndFailedFetches ≠ some 10 := by
  decide

/-- C1 (amended).  End-to-end report counts: population 23 with batch
size 10 partitions into batches of sizes 10, 10, 3; with the second
batch failing on every attempt and one record per identifier otherwise,
the report has `successfulFetches = 13`, `failedFetches = 1` (failures
are counted per failed batch — one errors entry — not per identifier),
and `errors` holds exactly one entry recording batch number 2 (the
source's one-based `batchIndex + 1`) with the batch's 10 identifiers and
the final error message. -/
theorem report_counts_amended :
    endToEndRun = some (Except.ok
      ⟨23, 13, 1,
        (generateSerialNumbers 23 "SN-").take 10 ++ (generateSerialNumbers 23 "SN-").drop 20,
        [⟨2, ((generateSerialNumbers 23 "SN-").drop 10).take 10,
          "No response from server. Is the mock API running?"⟩]⟩) ∧
    ((createBatches (generateSerialNumbers 23 "SN-") 10).getD []).map List.length =
      [10, 10, 3] := by
  decide

end EnergyGrid
